import Mathlib

/-
Verification of the LBO simulation engine in `src/modeling/lbo_model.py`
(class `LBOModel`), shallowly embedded over exact rational arithmetic.

Correspondence with the source:
  * `Candidate`            — the pandas Series `candidate_data`; a numeric
    field that may be missing/NaN is an `Option ℚ` (`none` = `pd.isna`).
  * `Assumptions`          — the `assumptions` dict (all five keys required).
  * `projectCashFlows`     — `LBOModel._project_cash_flows`.
  * `sweepStep` / `modelDebtSchedule` — `LBOModel._model_debt_schedule`.
  * `LBOState`, `runModel` — an `LBOModel` instance and `run_model`; the
    mutable cache `self.projections` becomes explicit state threading, so
    `runModel` returns the new state together with `run_model`'s return
    value (`none` = Python `None`).
  * `arangeQ`, `sensRow`, `sensRows`, `runSensitivityAnalysis` —
    `np.arange` and `run_sensitivity_analysis`; a matrix cell that is never
    assigned (the `if result:` guard fails) stays `none` (= NaN).

Python floats are modelled as exact rationals; the float exponentiation
`moic ** (1 / years)` is modelled by real rpow, which is the only
real-valued (hence non-executable) part of the development.
-/

/-- The candidate record (`self.data`): the four named numeric fields read
by the model, each possibly missing, plus the Series name (the ticker). -/
structure Candidate where
  name : String
  ltmEbitda : Option ℚ
  evEbitda : Option ℚ
  revenueCagr : Option ℚ
  capexPctSales : Option ℚ
deriving DecidableEq

/-- The assumptions record (`self.assumptions`): the five keys the engine
reads; all are required (no defaults inside the engine). -/
structure Assumptions where
  projectionYears : ℕ
  entryLeverageMultiple : ℚ
  exitMultiplePremium : ℚ
  interestRate : ℚ
  taxRate : ℚ
deriving DecidableEq

/-- One row of the projections DataFrame: the `EBITDA` and
`Unlevered FCF` columns. -/
structure PeriodRecord where
  ebitda : ℚ
  ufcf : ℚ
deriving DecidableEq

/-- `LBOModel._project_cash_flows`: EBITDA grows from `ltmEbitda` at
`revenueCagr` for `PROJECTION_YEARS` periods; unlevered FCF is
NOPAT + D&A − CapEx − ΔNWC with D&A = 15% of EBITDA, ΔNWC = 5% of the
EBITDA delta (`diff().fillna(0)`, so the first period's delta is 0), and
CapEx = `capexPctSales` × EBITDA. -/
def projectCashFlows (a : Assumptions) (ltmEbitda revenueCagr capexPctSales : ℚ) :
    List PeriodRecord :=
  let n := a.projectionYears
  let projectedEbitda : List ℚ :=
    (List.range n).map (fun i => ltmEbitda * (1 + revenueCagr) ^ (i + 1))
  let changeInNwc : List ℚ :=
    (List.range n).map (fun i =>
      (if i = 0 then 0 else projectedEbitda.getD i 0 - projectedEbitda.getD (i - 1) 0) *
        (5 / 100))
  (List.range n).map (fun i =>
    let e := projectedEbitda.getD i 0
    let dAndA := e * (15 / 100)
    let ebit := e - dAndA
    let taxes := ebit * a.taxRate
    let nopat := ebit - taxes
    let capex := e * capexPctSales
    { ebitda := e, ufcf := nopat + dAndA - capex - changeInNwc.getD i 0 })

/-- One iteration of the cash-sweep loop in `_model_debt_schedule`:
interest accrues on the running balance, the principal paydown is
`min(debt_balance, max(0, fcf - interest))`, and the balance decreases by
the paydown. -/
def sweepStep (a : Assumptions) (debtBalance fcf : ℚ) : ℚ :=
  let interestPayment := debtBalance * a.interestRate
  let cashAvailableForDebt := fcf - interestPayment
  let principalPaydown := min debtBalance (max 0 cashAvailableForDebt)
  debtBalance - principalPaydown

/-- `LBOModel._model_debt_schedule`: the `Ending Debt` column, one entry
per FCF period, produced by iterating `sweepStep` from `startingDebt`. -/
def modelDebtSchedule (a : Assumptions) : ℚ → List ℚ → List ℚ
  | _, [] => []
  | debtBalance, fcf :: rest =>
    sweepStep a debtBalance fcf :: modelDebtSchedule a (sweepStep a debtBalance fcf) rest

/-- The result dict returned by `run_model` on success: the seven keys
`Ticker`, `Entry EV`, `Entry Equity`, `Exit EV`, `Exit Equity`, `IRR`,
`MOIC`.  `IRR` is the one float produced by a real-valued operation
(`moic ** (1 / years)`), so it lives in `ℝ`. -/
structure RunResult where
  ticker : String
  entryEV : ℚ
  entryEquity : ℚ
  exitEV : ℚ
  exitEquity : ℚ
  irr : ℝ
  moic : ℚ

/-- The mutable part of an `LBOModel` instance: the candidate Series, the
assumptions dict, and the `self.projections` cache (initially `None`). -/
structure LBOState where
  data : Candidate
  assumptions : Assumptions
  projections : Option (List PeriodRecord)

/-- `LBOModel.__init__`: stores the candidate and assumptions and sets the
projections cache to `None`. -/
def LBOState.init (c : Candidate) (a : Assumptions) : LBOState :=
  { data := c, assumptions := a, projections := none }

/-- The entry multiple `run_model` uses: the override when supplied,
otherwise the candidate's base `EV/EBITDA`. -/
def effectiveEntryMultiple (c : Candidate) (entryMultipleOverride : Option ℚ) : Option ℚ :=
  entryMultipleOverride.orElse (fun _ => c.evEbitda)

/-- The IRR formula in `run_model`:
`(moic ** (1 / years)) - 1 if moic > 0 else -1.0`. -/
noncomputable def irrFormula (moic : ℚ) (years : ℕ) : ℝ :=
  if 0 < moic then (moic : ℝ) ^ ((1 : ℝ) / (years : ℝ)) - 1 else -1

/-- `LBOModel.run_model`, with the instance state made explicit: returns
the new state and the Python return value (`none` = `None`).  The guards,
their order, and the cache write mirror the source line by line. -/
noncomputable def runModel (s : LBOState) (entryMultipleOverride exitMultipleOverride : Option ℚ) :
    LBOState × Option RunResult :=
  match s.data.ltmEbitda, effectiveEntryMultiple s.data entryMultipleOverride with
  | some ltmEbitda, some entryMultiple =>
    let entryEnterpriseValue := ltmEbitda * entryMultiple
    let entryDebt := ltmEbitda * s.assumptions.entryLeverageMultiple
    let entryEquity := entryEnterpriseValue - entryDebt
    if entryEquity ≤ 0 then (s, none)
    else
      let projections :=
        match s.projections with
        | some p => p
        | none =>
          projectCashFlows s.assumptions ltmEbitda
            (s.data.revenueCagr.getD (3 / 100)) (s.data.capexPctSales.getD (3 / 100))
      let s' := { s with projections := some projections }
      let debtSchedule :=
        modelDebtSchedule s.assumptions entryDebt (projections.map PeriodRecord.ufcf)
      let finalDebtBalance := debtSchedule.getLast?.getD 0
      let exitEbitda := (projections.map PeriodRecord.ebitda).getLast?.getD 0
      let exitMultiple :=
        exitMultipleOverride.getD (entryMultiple + s.assumptions.exitMultiplePremium)
      let exitEnterpriseValue := exitEbitda * exitMultiple
      let exitEquityValue := exitEnterpriseValue - finalDebtBalance
      let moic := exitEquityValue / entryEquity
      let years := s.assumptions.projectionYears
      (s', some
        { ticker := s.data.name
          entryEV := entryEnterpriseValue
          entryEquity := entryEquity
          exitEV := exitEnterpriseValue
          exitEquity := exitEquityValue
          irr := irrFormula moic years
          moic := moic })
  | _, _ => (s, none)

/-- The projection a call from state `s` works with: the cached one when
present, otherwise the one `_project_cash_flows` would compute for the
candidate (empty if LTM EBITDA is missing, in which case it is never
reached). -/
def effProj (s : LBOState) : List PeriodRecord :=
  match s.projections with
  | some p => p
  | none =>
    match s.data.ltmEbitda with
    | some ltmEbitda =>
      projectCashFlows s.assumptions ltmEbitda
        (s.data.revenueCagr.getD (3 / 100)) (s.data.capexPctSales.getD (3 / 100))
    | none => []

/-- The pure returns calculation: `run_model` run against an explicitly
given (already warm) projection cache, keeping only the return value. -/
noncomputable def runPure (c : Candidate) (a : Assumptions) (proj : List PeriodRecord)
    (entryMultipleOverride exitMultipleOverride : Option ℚ) : Option RunResult :=
  (runModel ⟨c, a, some proj⟩ entryMultipleOverride exitMultipleOverride).2

/-- The result record built in the accepted branch of `run_model`, as a
function of the candidate, assumptions, projection in use, the resolved
LTM EBITDA and entry multiple, and the exit-multiple override. -/
noncomputable def acceptedResult (c : Candidate) (a : Assumptions) (proj : List PeriodRecord)
    (ltmEbitda entryMultiple : ℚ) (exitMultipleOverride : Option ℚ) : RunResult :=
  let entryEV := ltmEbitda * entryMultiple
  let entryDebt := ltmEbitda * a.entryLeverageMultiple
  let entryEquity := entryEV - entryDebt
  let finalDebtBalance :=
    (modelDebtSchedule a entryDebt (proj.map PeriodRecord.ufcf)).getLast?.getD 0
  let exitEbitda := (proj.map PeriodRecord.ebitda).getLast?.getD 0
  let exitMultiple := exitMultipleOverride.getD (entryMultiple + a.exitMultiplePremium)
  let exitEV := exitEbitda * exitMultiple
  let exitEquity := exitEV - finalDebtBalance
  let moic := exitEquity / entryEquity
  { ticker := c.name, entryEV := entryEV, entryEquity := entryEquity, exitEV := exitEV
    exitEquity := exitEquity, irr := irrFormula moic a.projectionYears, moic := moic }

/-- `np.arange(start, stop, step)` for a positive step: the number of
points is `ceil((stop - start) / step)` and point `i` is
`start + i * step`. -/
def arangeQ (start stop step : ℚ) : List ℚ :=
  (List.range (⌈(stop - start) / step⌉.toNat)).map (fun i : ℕ => start + (i : ℚ) * step)

/-- A sensitivity DataFrame: labelled row axis (entry multiples), labelled
column axis (exit multiples), and a cell per (row, column) pair that is
`none` when the `if result:` guard never assigned it (NaN). -/
structure SensMatrix (α : Type) where
  indexName : String
  columnsName : String
  index : List ℚ
  columns : List ℚ
  cells : List (List (Option α))

/-- The inner loop of `run_sensitivity_analysis`: one grid row (one entry
multiple, all exit multiples), threading the instance state through the
`run_model` calls and collecting the IRR and MOIC cells. -/
noncomputable def sensRow (entryMult : ℚ) :
    LBOState → List ℚ → LBOState × (List (Option ℝ) × List (Option ℚ))
  | s, [] => (s, ([], []))
  | s, exitMult :: rest =>
    let step := runModel s (some entryMult) (some exitMult)
    let tail := sensRow entryMult step.1 rest
    (tail.1, (step.2.map RunResult.irr :: tail.2.1, step.2.map RunResult.moic :: tail.2.2))

/-- The outer loop of `run_sensitivity_analysis`: one row per entry
multiple. -/
noncomputable def sensRows (exitMults : List ℚ) :
    LBOState → List ℚ → LBOState × (List (List (Option ℝ)) × List (List (Option ℚ)))
  | s, [] => (s, ([], []))
  | s, entryMult :: rest =>
    let row := sensRow entryMult s exitMults
    let tail := sensRows exitMults row.1 rest
    (tail.1, (row.2.1 :: tail.2.1, row.2.2 :: tail.2.2))

/-- `LBOModel.run_sensitivity_analysis`: `(None, None)` when the base
entry multiple is missing, otherwise the IRR and MOIC matrices over
`np.arange(base - 1.0, base + 1.1, 0.5)` on both axes. -/
noncomputable def runSensitivityAnalysis (s : LBOState) :
    LBOState × (Option (SensMatrix ℝ) × Option (SensMatrix ℚ)) :=
  match s.data.evEbitda with
  | none => (s, (none, none))
  | some base =>
    let multiples := arangeQ (base - 1) (base + 11 / 10) (1 / 2)
    let grid := sensRows multiples s multiples
    (grid.1,
      (some { indexName := "Entry Multiple", columnsName := "Exit Multiple"
              index := multiples, columns := multiples, cells := grid.2.1 },
       some { indexName := "Entry Multiple", columnsName := "Exit Multiple"
              index := multiples, columns := multiples, cells := grid.2.2 }))

/-- A candidate with all four fields present, flat growth and no capex
(EBITDA 100, EV/EBITDA 8×, CAGR 0, CapEx ratio 0). -/
def flatCandidate : Candidate := ⟨"FLAT", some 100, some 8, some 0, some 0⟩

/-- A candidate missing its LTM EBITDA. -/
def noLtmCandidate : Candidate := ⟨"NOLTM", none, some 8, none, none⟩

/-- A candidate with LTM EBITDA and EV/EBITDA present but revenue CAGR
and capex ratio missing. -/
def noCagrCandidate : Candidate := ⟨"NOCAGR", some 100, some 8, none, none⟩

/-- A candidate missing its base EV/EBITDA multiple. -/
def noMultCandidate : Candidate := ⟨"NOEV", some 100, none, none, none⟩

/-- One-year horizon, no leverage, no exit premium, zero rates. -/
def unitAssumptions : Assumptions := ⟨1, 0, 0, 0, 0⟩

/-- Like `unitAssumptions` but with a nonzero exit-multiple premium. -/
def premiumAssumptions : Assumptions := ⟨1, 0, 1, 0, 0⟩

/-- The assumptions shipped in `config.py` (`LBO_ASSUMPTIONS`). -/
def configAssumptions : Assumptions := ⟨5, 6, 0, 7 / 100, 25 / 100⟩

/-- The candidate with the engine's `.get(..., 0.03)` defaults filled in
for the two optional growth fields. -/
def withDefaults (c : Candidate) : Candidate :=
  { c with
    revenueCagr := some (c.revenueCagr.getD (3 / 100))
    capexPctSales := some (c.capexPctSales.getD (3 / 100)) }

/-- Cell lookup in an optional sensitivity matrix (row `i`, column `j`). -/
def cellAt {α : Type} : Option (SensMatrix α) → ℕ → ℕ → Option α
  | none, _, _ => none
  | some M, i, j => (M.cells.getD i []).getD j none

/-- Generic evaluation of an element of a mapped range. -/
theorem getD_map_range {α : Type} (f : ℕ → α) (n i : ℕ) (d : α) (h : i < n) :
    ((List.range n).map f).getD i d = f i := by
  rw [List.getD_eq_getElem?_getD, List.getElem?_map, List.getElem?_range h]
  rfl

theorem length_map_range {α : Type} (f : ℕ → α) (n : ℕ) :
    ((List.range n).map f).length = n := by simp

/-- Length of the projection: one record per projection year. -/
theorem projectCashFlows_length (a : Assumptions) (e g c : ℚ) :
    (projectCashFlows a e g c).length = a.projectionYears := by
  simp [projectCashFlows]

/-- Closed form of each projection record, 0-indexed. -/
theorem projectCashFlows_getD (a : Assumptions) (e g c : ℚ) (i : ℕ)
    (h : i < a.projectionYears) :
    (projectCashFlows a e g c).getD i ⟨0, 0⟩ =
      { ebitda := e * (1 + g) ^ (i + 1)
        ufcf :=
          (e * (1 + g) ^ (i + 1) - e * (1 + g) ^ (i + 1) * (15 / 100)) -
              (e * (1 + g) ^ (i + 1) - e * (1 + g) ^ (i + 1) * (15 / 100)) * a.taxRate +
              e * (1 + g) ^ (i + 1) * (15 / 100) -
              e * (1 + g) ^ (i + 1) * c -
              (if i = 0 then 0 else e * (1 + g) ^ (i + 1) - e * (1 + g) ^ i) * (5 / 100) } := by
  unfold projectCashFlows
  rw [getD_map_range _ _ _ _ h]
  have hnwc : ((List.range a.projectionYears).map (fun j =>
      (if j = 0 then (0:ℚ) else
        ((List.range a.projectionYears).map
            (fun k => e * (1 + g) ^ (k + 1))).getD j 0 -
          ((List.range a.projectionYears).map
            (fun k => e * (1 + g) ^ (k + 1))).getD (j - 1) 0) * (5 / 100))).getD i 0 =
      (if i = 0 then (0:ℚ) else e * (1 + g) ^ (i + 1) - e * (1 + g) ^ i) * (5 / 100) := by
    rw [getD_map_range _ _ _ _ h]
    rcases Nat.eq_zero_or_pos i with h0 | h0
    · simp [h0]
    · have hne : i ≠ 0 := Nat.pos_iff_ne_zero.mp h0
      have h1 : i - 1 < a.projectionYears := lt_of_le_of_lt (Nat.sub_le i 1) h
      rw [if_neg hne, if_neg hne, getD_map_range _ _ _ _ h,
        getD_map_range (fun k => e * (1 + g) ^ (k + 1)) a.projectionYears (i - 1) 0 h1]
      have h2 : i - 1 + 1 = i := Nat.succ_pred_eq_of_pos h0
      rw [h2]
  rw [getD_map_range _ _ _ _ h, hnwc]

/-- The new balance after a sweep step is never negative (the paydown is
capped by the balance). -/
theorem sweepStep_nonneg (a : Assumptions) (bal fcf : ℚ) : 0 ≤ sweepStep a bal fcf := by
  show 0 ≤ bal - min bal (max 0 (fcf - bal * a.interestRate))
  have : min bal (max 0 (fcf - bal * a.interestRate)) ≤ bal := min_le_left _ _
  linarith

/-- From a non-negative balance, the balance never increases (the paydown
is never negative). -/
theorem sweepStep_le (a : Assumptions) (bal fcf : ℚ) (h : 0 ≤ bal) :
    sweepStep a bal fcf ≤ bal := by
  show bal - min bal (max 0 (fcf - bal * a.interestRate)) ≤ bal
  have h1 : (0:ℚ) ≤ max 0 (fcf - bal * a.interestRate) := le_max_left _ _
  have : (0:ℚ) ≤ min bal (max 0 (fcf - bal * a.interestRate)) := le_min h h1
  linarith

/-- A balance of exactly zero stays zero after a sweep step. -/
theorem sweepStep_zero (a : Assumptions) (fcf : ℚ) : sweepStep a 0 fcf = 0 := by
  show (0:ℚ) - min 0 (max 0 (fcf - 0 * a.interestRate)) = 0
  simp

theorem modelDebtSchedule_length (a : Assumptions) (start : ℚ) (fcfs : List ℚ) :
    (modelDebtSchedule a start fcfs).length = fcfs.length := by
  induction fcfs generalizing start with
  | nil => rfl
  | cons f rest ih => simp [modelDebtSchedule, ih]

/-- Every ending balance in the schedule is non-negative. -/
theorem modelDebtSchedule_nonneg (a : Assumptions) (start : ℚ) (fcfs : List ℚ) :
    ∀ b ∈ modelDebtSchedule a start fcfs, 0 ≤ b := by
  induction fcfs generalizing start with
  | nil => intro b hb; simp [modelDebtSchedule] at hb
  | cons f rest ih =>
    intro b hb
    simp only [modelDebtSchedule, List.mem_cons] at hb
    rcases hb with hb | hb
    · rw [hb]; exact sweepStep_nonneg a start f
    · exact ih (sweepStep a start f) b hb

/-- From a non-negative start, the balance sequence (start included) is
monotonically non-increasing. -/
theorem modelDebtSchedule_chain (a : Assumptions) (start : ℚ) (fcfs : List ℚ)
    (h : 0 ≤ start) :
    List.Chain' (fun x y => y ≤ x) (start :: modelDebtSchedule a start fcfs) := by
  induction fcfs generalizing start with
  | nil => simp [modelDebtSchedule]
  | cons f rest ih =>
    simp only [modelDebtSchedule]
    rw [List.chain'_cons]
    exact ⟨sweepStep_le a start f h, ih (sweepStep a start f) (sweepStep_nonneg a start f)⟩

/-- The recurrence satisfied by the schedule, indexed: entry `i` is one
sweep step applied to the previous balance (entry `i-1`, or the start). -/
theorem modelDebtSchedule_getD (a : Assumptions) (start : ℚ) (fcfs : List ℚ)
    (i : ℕ) (h : i < fcfs.length) :
    (modelDebtSchedule a start fcfs).getD i 0 =
      sweepStep a ((start :: modelDebtSchedule a start fcfs).getD i 0) (fcfs.getD i 0) := by
  induction fcfs generalizing start i with
  | nil => simp at h
  | cons f rest ih =>
    cases i with
    | zero => simp [modelDebtSchedule]
    | succ j =>
      have hj : j < rest.length := Nat.lt_of_succ_lt_succ h
      simp only [modelDebtSchedule, List.getD_cons_succ]
      exact ih (sweepStep a start f) j hj

theorem effProj_some (c : Candidate) (a : Assumptions) (p : List PeriodRecord) :
    effProj ⟨c, a, some p⟩ = p := rfl

/-- Complete case analysis of one `run_model` call: either a guard fires
and the call returns `None` with the state untouched, or the cache is
warmed (a no-op if it already was) and the accepted-branch record comes
back. -/
theorem runModel_eq (c : Candidate) (a : Assumptions) (po : Option (List PeriodRecord))
    (o₁ o₂ : Option ℚ) :
    runModel ⟨c, a, po⟩ o₁ o₂ =
      match c.ltmEbitda, effectiveEntryMultiple c o₁ with
      | some ltm, some m =>
        if ltm * m - ltm * a.entryLeverageMultiple ≤ 0 then (⟨c, a, po⟩, none)
        else
          (⟨c, a, some (effProj ⟨c, a, po⟩)⟩,
            some (acceptedResult c a (effProj ⟨c, a, po⟩) ltm m o₂))
      | _, _ => (⟨c, a, po⟩, none) := by
  cases h1 : c.ltmEbitda with
  | none => simp [runModel, h1]
  | some ltm =>
    cases h2 : effectiveEntryMultiple c o₁ with
    | none => simp [runModel, h1, h2]
    | some m =>
      by_cases h3 : ltm * m - ltm * a.entryLeverageMultiple ≤ 0
      · simp [runModel, h1, h2, h3]
      · cases po with
        | some p => simp [runModel, h1, h2, h3, effProj, acceptedResult]
        | none => simp [runModel, h1, h2, h3, effProj, acceptedResult]

/-- `runPure` by the same case analysis. -/
theorem runPure_eq (c : Candidate) (a : Assumptions) (proj : List PeriodRecord)
    (o₁ o₂ : Option ℚ) :
    runPure c a proj o₁ o₂ =
      match c.ltmEbitda, effectiveEntryMultiple c o₁ with
      | some ltm, some m =>
        if ltm * m - ltm * a.entryLeverageMultiple ≤ 0 then none
        else some (acceptedResult c a proj ltm m o₂)
      | _, _ => none := by
  unfold runPure
  rw [runModel_eq]
  cases h1 : c.ltmEbitda with
  | none => simp
  | some ltm =>
    cases h2 : effectiveEntryMultiple c o₁ with
    | none => simp
    | some m =>
      by_cases h3 : ltm * m - ltm * a.entryLeverageMultiple ≤ 0
      · simp [h3]
      · simp [h3, effProj_some]

/-- A `run_model` call never touches the candidate data. -/
theorem runModel_fst_data (s : LBOState) (o₁ o₂ : Option ℚ) :
    (runModel s o₁ o₂).1.data = s.data := by
  obtain ⟨c, a, po⟩ := s
  rw [runModel_eq]
  cases h1 : c.ltmEbitda with
  | none => rfl
  | some ltm =>
    cases h2 : effectiveEntryMultiple c o₁ with
    | none => rfl
    | some m =>
      by_cases h3 : ltm * m - ltm * a.entryLeverageMultiple ≤ 0 <;> simp [h3]

/-- A `run_model` call never touches the assumptions. -/
theorem runModel_fst_assumptions (s : LBOState) (o₁ o₂ : Option ℚ) :
    (runModel s o₁ o₂).1.assumptions = s.assumptions := by
  obtain ⟨c, a, po⟩ := s
  rw [runModel_eq]
  cases h1 : c.ltmEbitda with
  | none => rfl
  | some ltm =>
    cases h2 : effectiveEntryMultiple c o₁ with
    | none => rfl
    | some m =>
      by_cases h3 : ltm * m - ltm * a.entryLeverageMultiple ≤ 0 <;> simp [h3]

/-- A rejected `run_model` call leaves the state exactly as it was. -/
theorem runModel_fst_of_none (s : LBOState) (o₁ o₂ : Option ℚ)
    (h : (runModel s o₁ o₂).2 = none) : (runModel s o₁ o₂).1 = s := by
  obtain ⟨c, a, po⟩ := s
  rw [runModel_eq] at h ⊢
  cases h1 : c.ltmEbitda with
  | none => rfl
  | some ltm =>
    cases h2 : effectiveEntryMultiple c o₁ with
    | none => rfl
    | some m =>
      rw [h1, h2] at h
      by_cases h3 : ltm * m - ltm * a.entryLeverageMultiple ≤ 0
      · simp [h3]
      · simp [h3] at h

/-- With a warm cache, a `run_model` call leaves the state exactly as it
was: the projection is reused, never recomputed or overwritten. -/
theorem runModel_fst_of_cached (s : LBOState) (o₁ o₂ : Option ℚ)
    (p : List PeriodRecord) (h : s.projections = some p) :
    (runModel s o₁ o₂).1 = s := by
  obtain ⟨c, a, po⟩ := s
  simp only at h
  subst h
  rw [runModel_eq]
  cases h1 : c.ltmEbitda with
  | none => rfl
  | some ltm =>
    cases h2 : effectiveEntryMultiple c o₁ with
    | none => rfl
    | some m =>
      by_cases h3 : ltm * m - ltm * a.entryLeverageMultiple ≤ 0 <;>
        simp [h3, effProj_some]

/-- The cache after a call: either unchanged, or (only from a cold cache)
set to the effective projection of the pre-call state. -/
theorem runModel_fst_projections (s : LBOState) (o₁ o₂ : Option ℚ) :
    (runModel s o₁ o₂).1.projections = s.projections ∨
      (s.projections = none ∧ (runModel s o₁ o₂).1.projections = some (effProj s)) := by
  cases hp : s.projections with
  | some p =>
    exact Or.inl ((congrArg LBOState.projections (runModel_fst_of_cached s o₁ o₂ p hp)).trans hp)
  | none =>
    obtain ⟨c, a, po⟩ := s
    simp only at hp
    subst hp
    rw [runModel_eq]
    cases h1 : c.ltmEbitda with
    | none => left; rfl
    | some ltm =>
      cases h2 : effectiveEntryMultiple c o₁ with
      | none => left; rfl
      | some m =>
        by_cases h3 : ltm * m - ltm * a.entryLeverageMultiple ≤ 0
        · left; simp [h3]
        · right; simp [h3]

/-- The effective projection is invariant across calls. -/
theorem effProj_runModel_fst (s : LBOState) (o₁ o₂ : Option ℚ) :
    effProj ((runModel s o₁ o₂).1) = effProj s := by
  obtain ⟨c, a, po⟩ := s
  rw [runModel_eq]
  cases h1 : c.ltmEbitda with
  | none => rfl
  | some ltm =>
    cases h2 : effectiveEntryMultiple c o₁ with
    | none => rfl
    | some m =>
      by_cases h3 : ltm * m - ltm * a.entryLeverageMultiple ≤ 0
      · simp [h3]
      · simp [h3, effProj_some]

/-- The value a call returns is the pure returns calculation applied to
the effective projection of the pre-call state. -/
theorem runModel_snd (s : LBOState) (o₁ o₂ : Option ℚ) :
    (runModel s o₁ o₂).2 = runPure s.data s.assumptions (effProj s) o₁ o₂ := by
  obtain ⟨c, a, po⟩ := s
  rw [runModel_eq, runPure_eq]
  cases h1 : c.ltmEbitda with
  | none => rfl
  | some ltm =>
    cases h2 : effectiveEntryMultiple c o₁ with
    | none => rfl
    | some m =>
      by_cases h3 : ltm * m - ltm * a.entryLeverageMultiple ≤ 0 <;> simp [h3]

/-- A grid row does not change the candidate, the assumptions, or the
effective projection. -/
theorem sensRow_fst (e : ℚ) (s : LBOState) (xs : List ℚ) :
    (sensRow e s xs).1.data = s.data ∧ (sensRow e s xs).1.assumptions = s.assumptions ∧
      effProj (sensRow e s xs).1 = effProj s := by
  induction xs generalizing s with
  | nil => exact ⟨rfl, rfl, rfl⟩
  | cons x rest ih =>
    obtain ⟨hd, ha, hp⟩ := ih (runModel s (some e) (some x)).1
    exact ⟨hd.trans (runModel_fst_data s (some e) (some x)),
      ha.trans (runModel_fst_assumptions s (some e) (some x)),
      hp.trans (effProj_runModel_fst s (some e) (some x))⟩

/-- Every IRR cell of a grid row is the pure calculation on the shared
effective projection. -/
theorem sensRow_irr (e : ℚ) (s : LBOState) (xs : List ℚ) :
    (sensRow e s xs).2.1 =
      xs.map (fun x =>
        (runPure s.data s.assumptions (effProj s) (some e) (some x)).map RunResult.irr) := by
  induction xs generalizing s with
  | nil => rfl
  | cons x rest ih =>
    simp only [sensRow, List.map_cons]
    refine congrArg₂ _ (by rw [runModel_snd]) ?_
    rw [ih (runModel s (some e) (some x)).1, runModel_fst_data, runModel_fst_assumptions,
      effProj_runModel_fst]

/-- Every MOIC cell of a grid row is the pure calculation on the shared
effective projection. -/
theorem sensRow_moic (e : ℚ) (s : LBOState) (xs : List ℚ) :
    (sensRow e s xs).2.2 =
      xs.map (fun x =>
        (runPure s.data s.assumptions (effProj s) (some e) (some x)).map RunResult.moic) := by
  induction xs generalizing s with
  | nil => rfl
  | cons x rest ih =>
    simp only [sensRow, List.map_cons]
    refine congrArg₂ _ (by rw [runModel_snd]) ?_
    rw [ih (runModel s (some e) (some x)).1, runModel_fst_data, runModel_fst_assumptions,
      effProj_runModel_fst]

theorem sensRows_fst (exs : List ℚ) (s : LBOState) (es : List ℚ) :
    (sensRows exs s es).1.data = s.data ∧ (sensRows exs s es).1.assumptions = s.assumptions ∧
      effProj (sensRows exs s es).1 = effProj s := by
  induction es generalizing s with
  | nil => exact ⟨rfl, rfl, rfl⟩
  | cons e rest ih =>
    obtain ⟨hd, ha, hp⟩ := ih (sensRow e s exs).1
    obtain ⟨hd', ha', hp'⟩ := sensRow_fst e s exs
    exact ⟨hd.trans hd', ha.trans ha', hp.trans hp'⟩

/-- The full IRR cell grid, described purely. -/
theorem sensRows_irr (exs : List ℚ) (s : LBOState) (es : List ℚ) :
    (sensRows exs s es).2.1 =
      es.map (fun e => exs.map (fun x =>
        (runPure s.data s.assumptions (effProj s) (some e) (some x)).map RunResult.irr)) := by
  induction es generalizing s with
  | nil => rfl
  | cons e rest ih =>
    simp only [sensRows, List.map_cons]
    obtain ⟨hd', ha', hp'⟩ := sensRow_fst e s exs
    refine congrArg₂ _ (sensRow_irr e s exs) ?_
    rw [ih (sensRow e s exs).1, hd', ha', hp']

/-- The full MOIC cell grid, described purely. -/
theorem sensRows_moic (exs : List ℚ) (s : LBOState) (es : List ℚ) :
    (sensRows exs s es).2.2 =
      es.map (fun e => exs.map (fun x =>
        (runPure s.data s.assumptions (effProj s) (some e) (some x)).map RunResult.moic)) := by
  induction es generalizing s with
  | nil => rfl
  | cons e rest ih =>
    simp only [sensRows, List.map_cons]
    obtain ⟨hd', ha', hp'⟩ := sensRow_fst e s exs
    refine congrArg₂ _ (sensRow_moic e s exs) ?_
    rw [ih (sensRow e s exs).1, hd', ha', hp']

/-- The concrete grid the analysis always uses: five multiples from
`base - 1.0` to `base + 1.0` in steps of `0.5`; the `+ 1.1` stop bound
makes `ceil(2.1 / 0.5) = 5` points, so the `base + 1.0` endpoint is
included. -/
theorem arangeQ_grid (b : ℚ) :
    arangeQ (b - 1) (b + 11 / 10) (1 / 2) = [b - 1, b - 1 / 2, b, b + 1 / 2, b + 1] := by
  unfold arangeQ
  have hq : ((b + 11 / 10) - (b - 1)) / (1 / 2) = (21 / 5 : ℚ) := by ring
  rw [hq]
  have hc : ⌈(21 / 5 : ℚ)⌉ = 5 := by
    rw [Int.ceil_eq_iff]
    constructor <;> norm_num
  rw [hc]
  have h5 : List.range (Int.toNat 5) = [0, 1, 2, 3, 4] := by decide
  rw [h5]
  simp only [List.map_cons, List.map_nil]
  push_cast
  refine congrArg₂ _ (by ring) (congrArg₂ _ (by ring) (congrArg₂ _ (by ring)
    (congrArg₂ _ (by ring) (congrArg₂ _ (by ring) rfl))))

/-- Last element of a mapped range. -/
theorem getLast?_map_range {α : Type} (f : ℕ → α) (n : ℕ) (h : 1 ≤ n) :
    ((List.range n).map f).getLast? = some (f (n - 1)) := by
  rw [List.getLast?_eq_getElem?]
  have hl : ((List.range n).map f).length = n := by simp
  rw [hl, List.getElem?_map, List.getElem?_range (Nat.sub_lt (lt_of_lt_of_le Nat.zero_lt_one h) Nat.zero_lt_one)]
  rfl

theorem projectCashFlows_flat (a : Assumptions) (h1 : a.projectionYears = 1)
    (h2 : a.taxRate = 0) :
    projectCashFlows a 100 0 0 = [⟨100, 100⟩] := by
  unfold projectCashFlows
  rw [h1, h2]
  norm_num [List.range_succ]

theorem effProj_flat_unit :
    effProj (LBOState.init flatCandidate unitAssumptions) = [⟨100, 100⟩] := by
  have h := projectCashFlows_flat unitAssumptions rfl rfl
  simpa [effProj, LBOState.init, flatCandidate, Option.getD] using h

theorem effProj_flat_premium :
    effProj (LBOState.init flatCandidate premiumAssumptions) = [⟨100, 100⟩] := by
  have h := projectCashFlows_flat premiumAssumptions rfl rfl
  simpa [effProj, LBOState.init, flatCandidate, Option.getD] using h

theorem runPure_flat_unit_base :
    runPure flatCandidate unitAssumptions [⟨100, 100⟩] none none =
      some ⟨"FLAT", 800, 800, 800, 800, 0, 1⟩ := by
  rw [runPure_eq]
  norm_num [flatCandidate, unitAssumptions, effectiveEntryMultiple, Option.orElse,
    acceptedResult, modelDebtSchedule, sweepStep, irrFormula, Real.one_rpow]

theorem runPure_flat_unit_exitZero :
    runPure flatCandidate unitAssumptions [⟨100, 100⟩] none (some 0) =
      some ⟨"FLAT", 800, 800, 0, 0, -1, 0⟩ := by
  rw [runPure_eq]
  norm_num [flatCandidate, unitAssumptions, effectiveEntryMultiple, Option.orElse,
    acceptedResult, modelDebtSchedule, sweepStep, irrFormula]

theorem runPure_flat_premium_cell :
    Option.map RunResult.moic
        (runPure flatCandidate premiumAssumptions [⟨100, 100⟩] (some 8) (some 8)) =
      some 1 := by
  rw [runPure_eq]
  norm_num [flatCandidate, premiumAssumptions, effectiveEntryMultiple, Option.orElse,
    acceptedResult, modelDebtSchedule, sweepStep]

theorem runPure_flat_premium_base :
    Option.map RunResult.moic
        (runPure flatCandidate premiumAssumptions [⟨100, 100⟩] none none) =
      some (9 / 8) := by
  rw [runPure_eq]
  norm_num [flatCandidate, premiumAssumptions, effectiveEntryMultiple, Option.orElse,
    acceptedResult, modelDebtSchedule, sweepStep]

/-- C1: for every candidate and (valid, horizon ≥ 1) assumptions set,
`run_model` returns `None` exactly when LTM EBITDA is missing, the
effective entry multiple (override if supplied, else the candidate's
EV/EBITDA) is missing, or entry equity
(LTM EBITDA × entry multiple − LTM EBITDA × entry leverage multiple) is
≤ 0; in every other case it returns a (by construction fully populated)
result record, and — being a total function into an option type — it
never raises a fault. -/
theorem claim1_runModel_none_iff (s : LBOState) (o₁ o₂ : Option ℚ)
    (hY : 1 ≤ s.assumptions.projectionYears) :
    (runModel s o₁ o₂).2 = none ↔
      s.data.ltmEbitda = none ∨ effectiveEntryMultiple s.data o₁ = none ∨
        ∃ ltm m, s.data.ltmEbitda = some ltm ∧ effectiveEntryMultiple s.data o₁ = some m ∧
          ltm * m - ltm * s.assumptions.entryLeverageMultiple ≤ 0 := by
  obtain ⟨c, a, po⟩ := s
  rw [runModel_eq]
  cases h1 : c.ltmEbitda with
  | none => simp [h1]
  | some ltm =>
    cases h2 : effectiveEntryMultiple c o₁ with
    | none => simp [h1, h2]
    | some m =>
      by_cases h3 : ltm * m - ltm * a.entryLeverageMultiple ≤ 0 <;>
        simp [h1, h2, h3] <;> linarith

/-- Witness for C1 at a concrete rejected input: the candidate missing
its LTM EBITDA is rejected, matching the first disjunct. -/
theorem claim1_witness :
    1 ≤ configAssumptions.projectionYears ∧
      ((runModel (LBOState.init noLtmCandidate configAssumptions) none none).2 = none ↔
        (LBOState.init noLtmCandidate configAssumptions).data.ltmEbitda = none ∨
          effectiveEntryMultiple (LBOState.init noLtmCandidate configAssumptions).data none =
            none ∨
          ∃ ltm m,
            (LBOState.init noLtmCandidate configAssumptions).data.ltmEbitda = some ltm ∧
              effectiveEntryMultiple (LBOState.init noLtmCandidate configAssumptions).data
                  none = some m ∧
              ltm * m - ltm * configAssumptions.entryLeverageMultiple ≤ 0) :=
  ⟨by decide, claim1_runModel_none_iff (LBOState.init noLtmCandidate configAssumptions)
    none none (by decide)⟩

/-- C2: for positive base EBITDA, any growth rate, capex ratio, tax rate
and horizon ≥ 1, period `p` (1-indexed) of the projection has
EBITDA = base × (1+g)^p and unlevered FCF = NOPAT + D&A − CapEx − ΔNWC
with D&A = 15% of EBITDA, EBIT = EBITDA − D&A, taxes = EBIT × tax rate,
NOPAT = EBIT − taxes, CapEx = EBITDA × capex ratio, and
ΔNWC = 5% × (EBITDA_p − EBITDA_(p−1)) with the first period's delta
treated as zero; in particular the final period's EBITDA is exactly
base × (1+g)^H, with no flooring at zero. -/
theorem claim2_projection_formulas (a : Assumptions) (base g capexRatio : ℚ)
    (hbase : 0 < base) (hH : 1 ≤ a.projectionYears) (p : ℕ) (hp1 : 1 ≤ p)
    (hpH : p ≤ a.projectionYears) :
    ((projectCashFlows a base g capexRatio).getD (p - 1) ⟨0, 0⟩ =
      (let ebitda := base * (1 + g) ^ p
       let dAndA := (15 / 100) * ebitda
       let ebit := ebitda - dAndA
       let taxes := ebit * a.taxRate
       let nopat := ebit - taxes
       let capex := ebitda * capexRatio
       let dnwc := if p = 1 then 0 else (5 / 100) * (ebitda - base * (1 + g) ^ (p - 1))
       { ebitda := ebitda, ufcf := nopat + dAndA - capex - dnwc })) ∧
    ((projectCashFlows a base g capexRatio).map PeriodRecord.ebitda).getLast? =
      some (base * (1 + g) ^ a.projectionYears) := by
  constructor
  · have hi : p - 1 < a.projectionYears := by omega
    rw [projectCashFlows_getD a base g capexRatio (p - 1) hi]
    have hp' : p - 1 + 1 = p := by omega
    rw [hp']
    by_cases h1 : p = 1
    · subst h1
      norm_num [PeriodRecord.mk.injEq]
      ring
    · have h0 : ¬(p - 1 = 0) := by omega
      rw [if_neg h0]
      simp only [PeriodRecord.mk.injEq, if_neg h1]
      exact ⟨trivial, by ring⟩
  · have hmap : (projectCashFlows a base g capexRatio).map PeriodRecord.ebitda =
        (List.range a.projectionYears).map (fun i => base * (1 + g) ^ (i + 1)) := by
      unfold projectCashFlows
      rw [List.map_map]
      refine List.map_congr_left ?_
      intro i hi
      rw [List.mem_range] at hi
      simp only [Function.comp]
      rw [getD_map_range _ _ _ _ hi]
    rw [hmap, getLast?_map_range _ _ hH]
    have : a.projectionYears - 1 + 1 = a.projectionYears := by omega
    rw [this]

/-- Witness for C2: the flat one-year projection of `flatCandidate`
(base 100, growth 0, capex 0, tax 0) has EBITDA 100 and unlevered FCF
100 in its only period. -/
theorem claim2_witness :
    (0 : ℚ) < 100 ∧ 1 ≤ unitAssumptions.projectionYears ∧
      (projectCashFlows unitAssumptions 100 0 0).getD 0 ⟨0, 0⟩ = ⟨100, 100⟩ := by
  refine ⟨by norm_num, by decide, ?_⟩
  have h := (claim2_projection_formulas unitAssumptions 100 0 0 (by norm_num) (by decide)
    1 (le_refl 1) (by decide)).1
  rw [show (1 : ℕ) - 1 = 0 from rfl] at h
  rw [h]
  norm_num [unitAssumptions]

/-- C3: for every starting balance ≥ 0, interest rate ≥ 0 and any FCF
sequence (negative entries allowed), the cash sweep satisfies per period
`new balance = current − min(current, max(0, FCF − current × rate))`;
consequently every ending balance is non-negative, the balance sequence
(start included) is monotonically non-increasing, and a balance of
exactly zero stays zero in all subsequent periods. -/
theorem claim3_debt_schedule (a : Assumptions) (start : ℚ) (fcfs : List ℚ)
    (hs : 0 ≤ start) (hr : 0 ≤ a.interestRate) :
    (∀ i, i < fcfs.length →
        (modelDebtSchedule a start fcfs).getD i 0 =
          (start :: modelDebtSchedule a start fcfs).getD i 0 -
            min ((start :: modelDebtSchedule a start fcfs).getD i 0)
              (max 0 (fcfs.getD i 0 -
                (start :: modelDebtSchedule a start fcfs).getD i 0 * a.interestRate))) ∧
    (∀ b ∈ modelDebtSchedule a start fcfs, 0 ≤ b) ∧
    List.Chain' (fun x y => y ≤ x) (start :: modelDebtSchedule a start fcfs) ∧
    (∀ i j, i ≤ j → j < fcfs.length →
        (modelDebtSchedule a start fcfs).getD i 0 = 0 →
        (modelDebtSchedule a start fcfs).getD j 0 = 0) := by
  refine ⟨?_, modelDebtSchedule_nonneg a start fcfs, modelDebtSchedule_chain a start fcfs hs, ?_⟩
  · intro i hi
    exact modelDebtSchedule_getD a start fcfs i hi
  · intro i j hij hj hzero
    rcases eq_or_lt_of_le hij with h | h
    · rw [← h]; exact hzero
    · have htrans : IsTrans ℚ (fun x y : ℚ => y ≤ x) := ⟨fun _ _ _ h1 h2 => le_trans h2 h1⟩
      have hpw := List.chain'_iff_pairwise.mp (modelDebtSchedule_chain a start fcfs hs)
      have hlen2 : (modelDebtSchedule a start fcfs).length = fcfs.length :=
        modelDebtSchedule_length a start fcfs
      have hlen : (start :: modelDebtSchedule a start fcfs).length = fcfs.length + 1 := by
        simp [modelDebtSchedule_length]
      have hi1 : i + 1 < (start :: modelDebtSchedule a start fcfs).length := by omega
      have hj1 : j + 1 < (start :: modelDebtSchedule a start fcfs).length := by omega
      have hrel := List.pairwise_iff_getElem.mp hpw (i + 1) (j + 1) hi1 hj1 (by omega)
      have hgi : (start :: modelDebtSchedule a start fcfs)[i + 1] =
          (modelDebtSchedule a start fcfs).getD i 0 := by
        rw [List.getElem_cons_succ, List.getD_eq_getElem?_getD,
          List.getElem?_eq_getElem (by omega : i < (modelDebtSchedule a start fcfs).length)]
        rfl
      have hgj : (start :: modelDebtSchedule a start fcfs)[j + 1] =
          (modelDebtSchedule a start fcfs).getD j 0 := by
        rw [List.getElem_cons_succ, List.getD_eq_getElem?_getD,
          List.getElem?_eq_getElem (by omega : j < (modelDebtSchedule a start fcfs).length)]
        rfl
      have hnn : 0 ≤ (modelDebtSchedule a start fcfs).getD j 0 := by
        rw [← hgj]
        rw [List.getElem_cons_succ]
        exact modelDebtSchedule_nonneg a start fcfs _
          (List.getElem_mem (by omega : j < (modelDebtSchedule a start fcfs).length))
      rw [hgi, hgj, hzero] at hrel
      linarith

/-- Witness for C3 at a concrete input: one period, balance 1, FCF 1,
zero interest — the recurrence instantiated at period 0. -/
theorem claim3_witness :
    (0 : ℚ) ≤ 1 ∧ (0 : ℚ) ≤ unitAssumptions.interestRate ∧
      (modelDebtSchedule unitAssumptions 1 [1]).getD 0 0 =
        (1 :: modelDebtSchedule unitAssumptions 1 [1]).getD 0 0 -
          min ((1 :: modelDebtSchedule unitAssumptions 1 [1]).getD 0 0)
            (max 0 (([1] : List ℚ).getD 0 0 -
              (1 :: modelDebtSchedule unitAssumptions 1 [1]).getD 0 0 *
                unitAssumptions.interestRate)) :=
  ⟨by norm_num, by norm_num [unitAssumptions],
    (claim3_debt_schedule unitAssumptions 1 [1] (by norm_num)
      (by norm_num [unitAssumptions])).1 0 (by norm_num)⟩

theorem acceptedResult_spec (c : Candidate) (a : Assumptions) (P : List PeriodRecord)
    (ltm m : ℚ) (o₂ : Option ℚ) :
    (acceptedResult c a P ltm m o₂).entryEquity = ltm * m - ltm * a.entryLeverageMultiple ∧
    (acceptedResult c a P ltm m o₂).moic =
      (acceptedResult c a P ltm m o₂).exitEquity / (acceptedResult c a P ltm m o₂).entryEquity ∧
    (acceptedResult c a P ltm m o₂).irr =
      irrFormula (acceptedResult c a P ltm m o₂).moic a.projectionYears :=
  ⟨rfl, rfl, rfl⟩

theorem irrFormula_one (y : ℕ) : irrFormula 1 y = 0 := by
  simp [irrFormula, Real.one_rpow]

theorem irrFormula_nonpos (q : ℚ) (y : ℕ) (h : q ≤ 0) : irrFormula q y = -1 := by
  simp [irrFormula, not_lt.mpr h]

/-- C4: on every accepted run (horizon ≥ 1), MOIC = exit equity ÷ entry
equity and IRR = MOIC^(1/horizon) − 1 when MOIC > 0, else the fixed
sentinel −1.0; consequently MOIC = 1 gives IRR = 0 exactly for any
horizon, and exit equity ≤ 0 gives MOIC ≤ 0 and IRR = −1.0, never a
computed value below that floor. -/
theorem claim4_returns (s : LBOState) (o₁ o₂ : Option ℚ) (r : RunResult)
    (hY : 1 ≤ s.assumptions.projectionYears)
    (h : (runModel s o₁ o₂).2 = some r) :
    0 < r.entryEquity ∧
    r.moic = r.exitEquity / r.entryEquity ∧
    r.irr = (if 0 < r.moic then
      (r.moic : ℝ) ^ ((1 : ℝ) / (s.assumptions.projectionYears : ℝ)) - 1 else -1) ∧
    (r.moic = 1 → r.irr = 0) ∧
    (r.exitEquity ≤ 0 → r.moic ≤ 0 ∧ r.irr = -1) := by
  obtain ⟨c, a, po⟩ := s
  rw [runModel_eq] at h
  cases h1 : c.ltmEbitda with
  | none => rw [h1] at h; simp at h
  | some ltm =>
    cases h2 : effectiveEntryMultiple c o₁ with
    | none => rw [h1, h2] at h; simp at h
    | some m =>
      rw [h1, h2] at h
      by_cases h3 : ltm * m - ltm * a.entryLeverageMultiple ≤ 0
      · simp only [if_pos h3] at h
        simp at h
      · simp only [if_neg h3, Option.some.injEq] at h
        subst h
        obtain ⟨he, hm, hi⟩ := acceptedResult_spec c a (effProj ⟨c, a, po⟩) ltm m o₂
        push_neg at h3
        have hpos : 0 < (acceptedResult c a (effProj ⟨c, a, po⟩) ltm m o₂).entryEquity := by
          rw [he]; linarith
        refine ⟨hpos, hm, ?_, ?_, ?_⟩
        · rw [hi]; rfl
        · intro h1m
          rw [hi, h1m, irrFormula_one]
        · intro hex
          have hmo : (acceptedResult c a (effProj ⟨c, a, po⟩) ltm m o₂).moic ≤ 0 := by
            rw [hm]
            exact div_nonpos_iff.mpr (Or.inr ⟨hex, hpos.le⟩)
          exact ⟨hmo, by rw [hi, irrFormula_nonpos _ _ hmo]⟩

/-- Witness for C4 at a concrete accepted run with MOIC exactly 1:
`flatCandidate` under `unitAssumptions` returns entry equity 800, exit
equity 800, MOIC 1 and IRR 0. -/
theorem claim4_witness :
    1 ≤ unitAssumptions.projectionYears ∧
    (runModel (LBOState.init flatCandidate unitAssumptions) none none).2 =
      some ⟨"FLAT", 800, 800, 800, 800, 0, 1⟩ ∧
    ((0 : ℚ) < 800 ∧ (1 : ℚ) = 800 / 800 ∧
      (0 : ℝ) = (if 0 < (1 : ℚ) then
        ((1 : ℚ) : ℝ) ^ ((1 : ℝ) / (unitAssumptions.projectionYears : ℝ)) - 1 else -1) ∧
      ((1 : ℚ) = 1 → (0 : ℝ) = 0) ∧ ((800 : ℚ) ≤ 0 → (1 : ℚ) ≤ 0 ∧ (0 : ℝ) = -1)) := by
  have hrun : (runModel (LBOState.init flatCandidate unitAssumptions) none none).2 =
      some ⟨"FLAT", 800, 800, 800, 800, 0, 1⟩ := by
    rw [runModel_snd, effProj_flat_unit]
    exact runPure_flat_unit_base
  exact ⟨by decide, hrun,
    claim4_returns (LBOState.init flatCandidate unitAssumptions) none none _ (by decide) hrun⟩

/-- C10: every division `run_model` performs is guarded — an accepted run
has strictly positive entry equity (the divisor of MOIC), MOIC really is
exit equity ÷ entry equity over that positive divisor, and under the
horizon ≥ 1 precondition the `1 / years` exponent's denominator is
nonzero; hence no accepted run divides by zero. -/
theorem claim10_division_guards (s : LBOState) (o₁ o₂ : Option ℚ) (r : RunResult)
    (hY : 1 ≤ s.assumptions.projectionYears)
    (h : (runModel s o₁ o₂).2 = some r) :
    0 < r.entryEquity ∧ r.moic = r.exitEquity / r.entryEquity ∧
      (s.assumptions.projectionYears : ℝ) ≠ 0 := by
  obtain ⟨c, a, po⟩ := s
  rw [runModel_eq] at h
  cases h1 : c.ltmEbitda with
  | none => rw [h1] at h; simp at h
  | some ltm =>
    cases h2 : effectiveEntryMultiple c o₁ with
    | none => rw [h1, h2] at h; simp at h
    | some m =>
      rw [h1, h2] at h
      by_cases h3 : ltm * m - ltm * a.entryLeverageMultiple ≤ 0
      · simp only [if_pos h3] at h
        simp at h
      · simp only [if_neg h3, Option.some.injEq] at h
        subst h
        obtain ⟨he, hm, _⟩ := acceptedResult_spec c a (effProj ⟨c, a, po⟩) ltm m o₂
        push_neg at h3
        refine ⟨by rw [he]; linarith, hm, ?_⟩
        have hY' : 1 ≤ a.projectionYears := hY
        have : a.projectionYears ≠ 0 := by omega
        exact Nat.cast_ne_zero.mpr this

/-- Witness for C10 at a concrete accepted run (exit multiple overridden
to 0, so MOIC = 0 and IRR is the −1 sentinel). -/
theorem claim10_witness :
    1 ≤ unitAssumptions.projectionYears ∧
    (runModel (LBOState.init flatCandidate unitAssumptions) none (some 0)).2 =
      some ⟨"FLAT", 800, 800, 0, 0, -1, 0⟩ ∧
    ((0 : ℚ) < 800 ∧ (0 : ℚ) = 0 / 800 ∧ (unitAssumptions.projectionYears : ℝ) ≠ 0) := by
  have hrun : (runModel (LBOState.init flatCandidate unitAssumptions) none (some 0)).2 =
      some ⟨"FLAT", 800, 800, 0, 0, -1, 0⟩ := by
    rw [runModel_snd, effProj_flat_unit]
    exact runPure_flat_unit_exitZero
  exact ⟨by decide, hrun,
    claim10_division_guards (LBOState.init flatCandidate unitAssumptions) none (some 0) _
      (by decide) hrun⟩

/-- Counterexample to C6 as stated: `noCagrCandidate` is missing both its
revenue CAGR and its capex ratio, yet `run_model` returns a result rather
than the claimed absence (the source defaults both fields to 0.03 via
`self.data.get(..., 0.03)`). -/
theorem claim6_counterexample :
    (runModel (LBOState.init noCagrCandidate unitAssumptions) none none).2 ≠ none := by
  rw [runModel_snd, runPure_eq]
  norm_num [noCagrCandidate, LBOState.init, unitAssumptions, effectiveEntryMultiple,
    Option.orElse]
  exact Option.some_ne_none _

/-- C6 (amended): absence of LTM EBITDA or of the effective entry
multiple propagates as "no result"; a missing revenue CAGR or capex
ratio does NOT propagate as absence — `run_model` behaves exactly as if
the missing field were present with the default value 0.03, and never
faults. -/
theorem claim6_amended (s : LBOState) (o₁ o₂ : Option ℚ) :
    ((s.data.ltmEbitda = none ∨ effectiveEntryMultiple s.data o₁ = none) →
        (runModel s o₁ o₂).2 = none) ∧
    (runModel s o₁ o₂).2 =
      (runModel ⟨withDefaults s.data, s.assumptions, s.projections⟩ o₁ o₂).2 := by
  obtain ⟨c, a, po⟩ := s
  constructor
  · intro h
    rcases h with h | h
    · rw [runModel_eq]
      rw [show (⟨c, a, po⟩ : LBOState).data.ltmEbitda = c.ltmEbitda from rfl] at h
      rw [h]
    · rw [runModel_eq]
      rw [show effectiveEntryMultiple (⟨c, a, po⟩ : LBOState).data o₁ =
        effectiveEntryMultiple c o₁ from rfl] at h
      rw [h]
      cases h1 : c.ltmEbitda <;> rfl
  · have hee : effectiveEntryMultiple (withDefaults c) o₁ = effectiveEntryMultiple c o₁ := rfl
    have hle : (withDefaults c).ltmEbitda = c.ltmEbitda := rfl
    rw [runModel_eq, runModel_eq, hee, hle]
    cases h1 : c.ltmEbitda with
    | none => rfl
    | some ltm =>
      cases h2 : effectiveEntryMultiple c o₁ with
      | none => rfl
      | some m =>
        by_cases h3 : ltm * m - ltm * a.entryLeverageMultiple ≤ 0
        · simp [h3]
        · simp only [if_neg h3]
          cases po with
          | some p => rfl
          | none =>
            cases hc : c.revenueCagr <;> cases hx : c.capexPctSales <;>
              simp [withDefaults, effProj, acceptedResult, h1, hc, hx]

/-- Witness for C6 (amended): the defaulting equation instantiated at the
candidate missing both optional fields. -/
theorem claim6_amended_witness :
    (runModel (LBOState.init noCagrCandidate unitAssumptions) none none).2 =
      (runModel ⟨withDefaults (LBOState.init noCagrCandidate unitAssumptions).data,
        (LBOState.init noCagrCandidate unitAssumptions).assumptions,
        (LBOState.init noCagrCandidate unitAssumptions).projections⟩ none none).2 :=
  (claim6_amended (LBOState.init noCagrCandidate unitAssumptions) none none).2

/-- C7: `run_sensitivity_analysis` returns `(None, None)` exactly when
the candidate's base entry multiple is undefined; otherwise it returns
both matrices, and each (entry, exit) cell is the (optional) value of the
corresponding `run_model` invocation — a rejected cell is `none` (an
absence marker, structurally distinct from a present zero). -/
theorem claim7_sensitivity (s : LBOState) :
    ((runSensitivityAnalysis s).2 = (none, none) ↔ s.data.evEbitda = none) ∧
    (∀ base, s.data.evEbitda = some base →
      (runSensitivityAnalysis s).2 =
        (some { indexName := "Entry Multiple", columnsName := "Exit Multiple"
                index := arangeQ (base - 1) (base + 11 / 10) (1 / 2)
                columns := arangeQ (base - 1) (base + 11 / 10) (1 / 2)
                cells := (arangeQ (base - 1) (base + 11 / 10) (1 / 2)).map (fun e =>
                  (arangeQ (base - 1) (base + 11 / 10) (1 / 2)).map (fun x =>
                    (runPure s.data s.assumptions (effProj s) (some e) (some x)).map
                      RunResult.irr)) },
         some { indexName := "Entry Multiple", columnsName := "Exit Multiple"
                index := arangeQ (base - 1) (base + 11 / 10) (1 / 2)
                columns := arangeQ (base - 1) (base + 11 / 10) (1 / 2)
                cells := (arangeQ (base - 1) (base + 11 / 10) (1 / 2)).map (fun e =>
                  (arangeQ (base - 1) (base + 11 / 10) (1 / 2)).map (fun x =>
                    (runPure s.data s.assumptions (effProj s) (some e) (some x)).map
                      RunResult.moic)) })) := by
  obtain ⟨c, a, po⟩ := s
  cases hb : c.evEbitda with
  | none =>
    constructor
    · simp [runSensitivityAnalysis, hb]
    · intro base hbase
      exact absurd hbase (by simp)
  | some b =>
    constructor
    · simp [runSensitivityAnalysis, hb]
    · intro base hbase
      rw [Option.some.injEq] at hbase
      subst hbase
      simp only [runSensitivityAnalysis, hb]
      rw [sensRows_irr, sensRows_moic]

/-- Witness for C7: a candidate with an undefined base multiple makes the
analysis return the `(None, None)` pair. -/
theorem claim7_witness :
    (runSensitivityAnalysis (LBOState.init noMultCandidate configAssumptions)).2 =
      (none, none) :=
  (claim7_sensitivity (LBOState.init noMultCandidate configAssumptions)).1.mpr rfl

/-- With a defined base multiple, the analysis output described purely. -/
theorem runSensitivityAnalysis_some (s : LBOState) (base : ℚ)
    (h : s.data.evEbitda = some base) :
    (runSensitivityAnalysis s).2 =
      (some { indexName := "Entry Multiple", columnsName := "Exit Multiple"
              index := arangeQ (base - 1) (base + 11 / 10) (1 / 2)
              columns := arangeQ (base - 1) (base + 11 / 10) (1 / 2)
              cells := (arangeQ (base - 1) (base + 11 / 10) (1 / 2)).map (fun e =>
                (arangeQ (base - 1) (base + 11 / 10) (1 / 2)).map (fun x =>
                  (runPure s.data s.assumptions (effProj s) (some e) (some x)).map
                    RunResult.irr)) },
       some { indexName := "Entry Multiple", columnsName := "Exit Multiple"
              index := arangeQ (base - 1) (base + 11 / 10) (1 / 2)
              columns := arangeQ (base - 1) (base + 11 / 10) (1 / 2)
              cells := (arangeQ (base - 1) (base + 11 / 10) (1 / 2)).map (fun e =>
                (arangeQ (base - 1) (base + 11 / 10) (1 / 2)).map (fun x =>
                  (runPure s.data s.assumptions (effProj s) (some e) (some x)).map
                    RunResult.moic)) }) := by
  obtain ⟨c, a, po⟩ := s
  simp only at h
  simp only [runSensitivityAnalysis, h]
  rw [sensRows_irr, sensRows_moic]

/-- With the premium zeroed, overriding both multiples by the base is the
same call as the un-overridden base case. -/
theorem runPure_base_overrides (c : Candidate) (a : Assumptions) (P : List PeriodRecord)
    (base : ℚ) (hbase : c.evEbitda = some base) (hprem : a.exitMultiplePremium = 0) :
    runPure c a P (some base) (some base) = runPure c a P none none := by
  rw [runPure_eq, runPure_eq]
  have h1 : effectiveEntryMultiple c (some base) = some base := rfl
  have h2 : effectiveEntryMultiple c none = some base := by
    simp [effectiveEntryMultiple, Option.orElse, hbase]
  rw [h1, h2]
  cases hl : c.ltmEbitda with
  | none => rfl
  | some ltm =>
    by_cases h3 : ltm * base - ltm * a.entryLeverageMultiple ≤ 0
    · simp [h3]
    · simp only [if_neg h3, Option.some.injEq]
      simp [acceptedResult, hprem]

/-- Counterexample to C5 as stated: with a nonzero exit-multiple premium
(`premiumAssumptions`), the grid's (entry = base, exit = base) MOIC cell
is 1, while the unmodified base-case run's MOIC is 9/8 (its exit multiple
is base + premium, not base), so the claimed equality fails. -/
theorem claim5_counterexample :
    cellAt (runSensitivityAnalysis (LBOState.init flatCandidate premiumAssumptions)).2.2 2 2 ≠
      ((runModel (LBOState.init flatCandidate premiumAssumptions) none none).2).map
        RunResult.moic := by
  have hs := runSensitivityAnalysis_some (LBOState.init flatCandidate premiumAssumptions) 8 rfl
  have harr : arangeQ ((8 : ℚ) - 1) (8 + 11 / 10) (1 / 2) = [7, 15 / 2, 8, 17 / 2, 9] := by
    rw [arangeQ_grid]; norm_num
  rw [harr] at hs
  have h2 := congrArg Prod.snd hs
  simp only at h2
  have hcell :
      cellAt (runSensitivityAnalysis (LBOState.init flatCandidate premiumAssumptions)).2.2 2 2 =
      (runPure (LBOState.init flatCandidate premiumAssumptions).data
        (LBOState.init flatCandidate premiumAssumptions).assumptions
        (effProj (LBOState.init flatCandidate premiumAssumptions)) (some 8) (some 8)).map
        RunResult.moic := by
    rw [h2]
    simp [cellAt, List.getD]
  rw [hcell]
  rw [show (LBOState.init flatCandidate premiumAssumptions).data = flatCandidate from rfl,
    show (LBOState.init flatCandidate premiumAssumptions).assumptions = premiumAssumptions
      from rfl, effProj_flat_premium, runPure_flat_premium_cell, runModel_snd,
    show (LBOState.init flatCandidate premiumAssumptions).data = flatCandidate from rfl,
    show (LBOState.init flatCandidate premiumAssumptions).assumptions = premiumAssumptions
      from rfl, effProj_flat_premium, runPure_flat_premium_base]
  simp only [ne_eq, Option.some.injEq]
  norm_num

/-- C5 (amended): for every candidate with a defined base entry multiple,
both matrices carry the identical five-point label set
base − 1.0, …, base + 1.0 in 0.5 steps on both axes (the +1.0 endpoint
included via the +1.1 stop bound); and — provided the configured
exit-multiple premium is zero, as in the shipped `config.py` — the
(entry = base, exit = base) cell of each matrix equals the unmodified
base-case run's IRR and MOIC.  (With a nonzero premium the base case
exits at base + premium while the cell exits at base, and the equality
fails; see the counterexample.) -/
theorem claim5_amended (s : LBOState) (base : ℚ)
    (hbase : s.data.evEbitda = some base)
    (hprem : s.assumptions.exitMultiplePremium = 0) :
    ((runSensitivityAnalysis s).2.1.map SensMatrix.index =
        some [base - 1, base - 1 / 2, base, base + 1 / 2, base + 1]) ∧
    ((runSensitivityAnalysis s).2.1.map SensMatrix.columns =
        some [base - 1, base - 1 / 2, base, base + 1 / 2, base + 1]) ∧
    ((runSensitivityAnalysis s).2.2.map SensMatrix.index =
        some [base - 1, base - 1 / 2, base, base + 1 / 2, base + 1]) ∧
    ((runSensitivityAnalysis s).2.2.map SensMatrix.columns =
        some [base - 1, base - 1 / 2, base, base + 1 / 2, base + 1]) ∧
    cellAt (runSensitivityAnalysis s).2.1 2 2 =
      ((runModel s none none).2).map RunResult.irr ∧
    cellAt (runSensitivityAnalysis s).2.2 2 2 =
      ((runModel s none none).2).map RunResult.moic := by
  have hs := runSensitivityAnalysis_some s base hbase
  rw [arangeQ_grid base] at hs
  have h1 := congrArg Prod.fst hs
  have h2 := congrArg Prod.snd hs
  simp only at h1 h2
  have hover := runPure_base_overrides s.data s.assumptions (effProj s) base hbase hprem
  refine ⟨by rw [h1]; rfl, by rw [h1]; rfl, by rw [h2]; rfl, by rw [h2]; rfl, ?_, ?_⟩
  · rw [h1]
    simp only [cellAt, List.map_cons, List.map_nil, List.getD_cons_succ, List.getD_cons_zero]
    rw [hover, runModel_snd]
  · rw [h2]
    simp only [cellAt, List.map_cons, List.map_nil, List.getD_cons_succ, List.getD_cons_zero]
    rw [hover, runModel_snd]

/-- Witness for C5 (amended) at `flatCandidate` under the zero-premium
`unitAssumptions`: the grid's central MOIC cell equals the base-case
MOIC. -/
theorem claim5_amended_witness :
    cellAt (runSensitivityAnalysis (LBOState.init flatCandidate unitAssumptions)).2.2 2 2 =
      ((runModel (LBOState.init flatCandidate unitAssumptions) none none).2).map
        RunResult.moic :=
  (claim5_amended (LBOState.init flatCandidate unitAssumptions) 8 rfl rfl).2.2.2.2.2

theorem effProj_of_cached (s : LBOState) (p : List PeriodRecord)
    (h : s.projections = some p) : effProj s = p := by
  obtain ⟨c, a, po⟩ := s
  simp only at h
  subst h
  rfl

/-- The sensitivity analysis never touches the candidate or assumptions. -/
theorem runSensitivityAnalysis_fst (s : LBOState) :
    (runSensitivityAnalysis s).1.data = s.data ∧
      (runSensitivityAnalysis s).1.assumptions = s.assumptions := by
  obtain ⟨c, a, po⟩ := s
  cases hb : c.evEbitda with
  | none => simp [runSensitivityAnalysis, hb]
  | some b =>
    simp only [runSensitivityAnalysis, hb]
    exact ⟨(sensRows_fst _ _ _).1, (sensRows_fst _ _ _).2.1⟩

/-- C8: the Projection is computed lazily on the first accepted run and
reused afterwards — with a warm cache a call is a pure function leaving
the state untouched; a first accepted run from a cold cache writes
exactly the effective projection; every call's value is the pure
calculation over the one effective projection; the whole MOIC grid is
computed from that same projection; and every accepted grid cell's exit
equity is net of the final balance of the one debt schedule determined by
the candidate and that projection (the overrides never enter the
schedule), so it coincides with the base case's schedule. -/
theorem claim8_projection_cache (s : LBOState) (o₁ o₂ : Option ℚ) (p : List PeriodRecord) :
    (s.projections = some p → runModel s o₁ o₂ = (s, runPure s.data s.assumptions p o₁ o₂)) ∧
    (s.projections = none → (runModel s o₁ o₂).2 ≠ none →
      (runModel s o₁ o₂).1 = { s with projections := some (effProj s) }) ∧
    ((runModel s o₁ o₂).2 = runPure s.data s.assumptions (effProj s) o₁ o₂) ∧
    (∀ base, s.data.evEbitda = some base →
      (runSensitivityAnalysis s).2.2.map SensMatrix.cells =
        some ((arangeQ (base - 1) (base + 11 / 10) (1 / 2)).map (fun e =>
          (arangeQ (base - 1) (base + 11 / 10) (1 / 2)).map (fun x =>
            (runPure s.data s.assumptions (effProj s) (some e) (some x)).map
              RunResult.moic)))) ∧
    (∀ ltm m x r', s.data.ltmEbitda = some ltm →
      runPure s.data s.assumptions (effProj s) (some m) (some x) = some r' →
      r'.exitEquity = r'.exitEV -
        (modelDebtSchedule s.assumptions (ltm * s.assumptions.entryLeverageMultiple)
          ((effProj s).map PeriodRecord.ufcf)).getLast?.getD 0) := by
  refine ⟨?_, ?_, runModel_snd s o₁ o₂, ?_, ?_⟩
  · intro h
    have hfst := runModel_fst_of_cached s o₁ o₂ p h
    have hsnd := runModel_snd s o₁ o₂
    rw [effProj_of_cached s p h] at hsnd
    exact Prod.ext hfst hsnd
  · intro hnone hsome
    obtain ⟨c, a, po⟩ := s
    simp only at hnone
    subst hnone
    rw [runModel_eq] at hsome ⊢
    cases h1 : c.ltmEbitda with
    | none => rw [h1] at hsome; simp at hsome
    | some ltm =>
      cases h2 : effectiveEntryMultiple c o₁ with
      | none => rw [h1, h2] at hsome; simp at hsome
      | some m =>
        rw [h1, h2] at hsome
        by_cases h3 : ltm * m - ltm * a.entryLeverageMultiple ≤ 0
        · simp [h3] at hsome
        · simp [h3]
  · intro base hb
    have h2 := congrArg Prod.snd (runSensitivityAnalysis_some s base hb)
    simp only at h2
    rw [h2]
    rfl
  · intro ltm m x r' hl hrun
    rw [runPure_eq] at hrun
    rw [hl] at hrun
    rw [show effectiveEntryMultiple s.data (some m) = some m from rfl] at hrun
    by_cases h3 : ltm * m - ltm * s.assumptions.entryLeverageMultiple ≤ 0
    · simp only [if_pos h3] at hrun
      simp at hrun
    · simp only [if_neg h3, Option.some.injEq] at hrun
      subst hrun
      rfl

/-- Witness for C8: the pure-value equation instantiated at a concrete
state and call. -/
theorem claim8_witness :
    (runModel (LBOState.init flatCandidate unitAssumptions) none none).2 =
      runPure (LBOState.init flatCandidate unitAssumptions).data
        (LBOState.init flatCandidate unitAssumptions).assumptions
        (effProj (LBOState.init flatCandidate unitAssumptions)) none none :=
  (claim8_projection_cache (LBOState.init flatCandidate unitAssumptions) none none []).2.2.1

/-- C9: the projections cache is the only instance state any `LBOModel`
operation mutates — it starts as `None`; `run_model` and the sensitivity
analysis never change the candidate or the assumptions; a warm cache is
never overwritten; from a cold cache a call either leaves it cold or sets
it (at most once) to the computed projection; and a rejected call leaves
the whole state exactly as it was. -/
theorem claim9_cache_only_state (c : Candidate) (a : Assumptions) (s : LBOState)
    (o₁ o₂ : Option ℚ) (p : List PeriodRecord) :
    (LBOState.init c a).data = c ∧
    (LBOState.init c a).assumptions = a ∧
    (LBOState.init c a).projections = none ∧
    ((runModel s o₁ o₂).1.data = s.data ∧ (runModel s o₁ o₂).1.assumptions = s.assumptions) ∧
    ((runSensitivityAnalysis s).1.data = s.data ∧
      (runSensitivityAnalysis s).1.assumptions = s.assumptions) ∧
    (s.projections = some p → (runModel s o₁ o₂).1.projections = some p) ∧
    (s.projections = none → (runModel s o₁ o₂).1.projections = none ∨
      (runModel s o₁ o₂).1.projections = some (effProj s)) ∧
    ((runModel s o₁ o₂).2 = none → (runModel s o₁ o₂).1 = s) := by
  refine ⟨rfl, rfl, rfl,
    ⟨runModel_fst_data s o₁ o₂, runModel_fst_assumptions s o₁ o₂⟩,
    runSensitivityAnalysis_fst s, ?_, ?_, runModel_fst_of_none s o₁ o₂⟩
  · intro h
    exact (congrArg LBOState.projections (runModel_fst_of_cached s o₁ o₂ p h)).trans h
  · intro h
    rcases runModel_fst_projections s o₁ o₂ with h' | h'
    · left; rw [h', h]
    · right; exact h'.2

/-- Witness for C9: the cache of a freshly initialised instance is
`None`. -/
theorem claim9_witness :
    (LBOState.init flatCandidate unitAssumptions).projections = none :=
  (claim9_cache_only_state flatCandidate unitAssumptions
    (LBOState.init flatCandidate unitAssumptions) none none []).2.2.1
